import Mathlib

/-!
Verification of the text-segmentation and reply-extraction core of the
dax_optimizer repository (src/dax_optimizer.py, src/dax_optimizer_simple.py).

Python strings are modelled as `List Char`; a document is a single character
list and lines are produced by splitting on the newline character, exactly as
`content.split('\n')` does.  `str.strip()` is modelled by `pyStrip`,
`str.upper()` by `pyUpper`, `'\n'.join` by `joinLines`.
-/

namespace DaxOpt

abbrev Line := List Char

/-- The whitespace test used by Python `str.strip()`. -/
def wsChar (c : Char) : Bool := c.isWhitespace

/-- Python `s.strip()`: remove leading and trailing whitespace. -/
def pyStrip (l : Line) : Line :=
  List.rdropWhile wsChar (l.dropWhile wsChar)

/-- Python `s.upper()` (ASCII behaviour). -/
def pyUpper (l : Line) : Line := l.map Char.toUpper

/-- Python `content.split('\n')`: split at every newline, keeping empty pieces. -/
def splitLines : Line → List Line
  | [] => [[]]
  | c :: cs =>
    if c = '\n' then [] :: splitLines cs
    else
      match splitLines cs with
      | [] => [[c]]
      | l :: ls => (c :: l) :: ls

/-- Python `'\n'.join(lines)`. -/
def joinLines : List Line → Line
  | [] => []
  | [l] => l
  | l :: ls => l ++ '\n' :: joinLines ls

/-- Python `pat in s`: substring containment. -/
def containsSub (pat : Line) : Line → Bool
  | [] => pat.isEmpty
  | c :: s => pat.isPrefixOf (c :: s) || containsSub pat s

/-- Helper for `replaceAll`, structurally recursive on a fuel bound that is
at least the length of the scanned string. -/
def replaceAllAux (pat new : Line) : Nat → Line → Line
  | 0, s => s
  | _, [] => []
  | fuel + 1, c :: s =>
    if pat ≠ [] ∧ pat.isPrefixOf (c :: s) then
      new ++ replaceAllAux pat new fuel ((c :: s).drop pat.length)
    else
      c :: replaceAllAux pat new fuel s

/-- Python `s.replace(pat, new)`: replace each non-overlapping occurrence of
`pat` left to right (for non-empty `pat`). -/
def replaceAll (pat new s : Line) : Line :=
  replaceAllAux pat new s.length s

/-! ## Segmenter: `parse_dax_file` (src/dax_optimizer.py lines 54-125) -/

/-- Line test `re.match(r'^[-=]{10,}$', stripped)`: the whole line is 10 or
more characters drawn from `-` and `=`. -/
def is_separator (s : Line) : Bool :=
  decide (10 ≤ s.length) && s.all fun c => c = '-' || c = '='

/-- Line test `'DAX MEASURES' in stripped or 'Folder' in stripped`. -/
def is_header (s : Line) : Bool :=
  containsSub ("DAX MEASURES".toList) s || containsSub ("Folder".toList) s

/-- Line test `stripped.startswith('[') and ']' in stripped`. -/
def is_measure_name (s : Line) : Bool :=
  List.isPrefixOf ['['] s && s.contains ']'

/-- One record produced by the segmenter: the dict
`{'measure_name': ..., 'dax_code': ...}`. -/
structure DaxRecord where
  measure_name : Line
  dax_code : Line
deriving DecidableEq, Repr

/-- Mutable loop state of `parse_dax_file`: `current_measure`, `current_dax`,
`in_dax_block` and the accumulated `expressions` list. -/
structure SegState where
  current_measure : Option Line
  current_dax : List Line
  in_dax_block : Bool
  expressions : List DaxRecord
deriving DecidableEq, Repr

/-- The flush step `if current_measure and current_dax: dax_code = ...;
if dax_code: expressions.append(...)` shared by the separator branch, the
measure-name branch and the end of the loop. -/
def flushInto (st : SegState) : List DaxRecord :=
  match st.current_measure with
  | none => st.expressions
  | some m =>
    if m = [] then st.expressions
    else if st.current_dax = [] then st.expressions
    else if pyStrip (joinLines st.current_dax) = [] then st.expressions
    else st.expressions ++ [⟨m, pyStrip (joinLines st.current_dax)⟩]

/-- One iteration of the `for line in lines` loop of `parse_dax_file`. -/
def parseStep (st : SegState) (line : Line) : SegState :=
  let stripped := pyStrip line
  if is_separator stripped then
    ⟨none, [], false, flushInto st⟩
  else if is_header stripped then
    st
  else if is_measure_name stripped then
    ⟨some stripped, [], true, flushInto st⟩
  else if stripped ≠ [] ∧ st.in_dax_block = true then
    ⟨st.current_measure, st.current_dax ++ [stripped], st.in_dax_block, st.expressions⟩
  else
    st

/-- Initial state of the `parse_dax_file` loop. -/
def initState : SegState := ⟨none, [], false, []⟩

/-- The loop of `parse_dax_file` over an already-split line list, followed by
the final flush. -/
def parse_dax_lines (lines : List Line) : List DaxRecord :=
  flushInto (lines.foldl parseStep initState)

/-- `parse_dax_file(content)` from src/dax_optimizer.py: split the document on
newlines and run the classification loop. -/
def parse_dax_file (content : Line) : List DaxRecord :=
  parse_dax_lines (splitLines content)

/-! ## ResponseExtractor: `parse_response` (src/dax_optimizer.py lines 159-226) -/

/-- The four section labels of the result dict. -/
inductive SKey
  | optimized
  | improvements
  | edge_cases
  | performance
deriving DecidableEq, Repr

/-- The `sections` table of `parse_response`, in source order. -/
def sections : List (Line × SKey) :=
  [("OPTIMIZED DAX".toList, .optimized),
   ("OPTIMIZED".toList, .optimized),
   ("IMPROVEMENTS MADE".toList, .improvements),
   ("IMPROVEMENTS".toList, .improvements),
   ("EDGE CASES HANDLED".toList, .edge_cases),
   ("EDGE CASES".toList, .edge_cases),
   ("PERFORMANCE NOTES".toList, .performance),
   ("PERFORMANCE".toList, .performance)]

/-- The header test of `parse_response` for one table entry `h` against
`line_upper`: `header in line_upper and (line_upper.startswith(header) or
line_upper.startswith("**" + header) or line_upper.startswith("###") or
line_upper.startswith("##"))`. -/
def headerMatches (lu h : Line) : Bool :=
  containsSub h lu &&
    (h.isPrefixOf lu || ("**".toList ++ h).isPrefixOf lu ||
      List.isPrefixOf ("###".toList) lu || List.isPrefixOf ("##".toList) lu)

/-- The inner `for header, key in sections` loop: the key of the first table
entry whose header test succeeds, if any. -/
def headerKey (line : Line) : Option SKey :=
  let lu := pyStrip (pyUpper line)
  (sections.find? fun p => headerMatches lu p.1).map fun p => p.2

/-- Loop state of `parse_response`: `current_section`, the `section_found`
flag, and the four accumulating result strings. -/
structure RespState where
  current_section : Option SKey
  section_found : Bool
  optimized : Line
  improvements : Line
  edge_cases : Line
  performance : Line
deriving DecidableEq, Repr

/-- Append `v` to the buffer of section `k` (`result[current_section] += v`). -/
def appendBuf (st : RespState) (k : SKey) (v : Line) : RespState :=
  match k with
  | .optimized => { st with optimized := st.optimized ++ v }
  | .improvements => { st with improvements := st.improvements ++ v }
  | .edge_cases => { st with edge_cases := st.edge_cases ++ v }
  | .performance => { st with performance := st.performance ++ v }

/-- Read the buffer of section `k`. -/
def getBuf (st : RespState) (k : SKey) : Line :=
  match k with
  | .optimized => st.optimized
  | .improvements => st.improvements
  | .edge_cases => st.edge_cases
  | .performance => st.performance

/-- The code-fence skip test: `stripped == '```' or stripped == '```dax' or
stripped.startswith('```')`. -/
def fenceSkip (stripped : Line) : Bool :=
  decide (stripped = "```".toList) || decide (stripped = "```dax".toList) ||
    List.isPrefixOf ("```".toList) stripped

/-- One iteration of the `for i, line in enumerate(lines)` loop of
`parse_response`. -/
def respStep (st : RespState) (line : Line) : RespState :=
  match headerKey line with
  | some k => { st with current_section := some k, section_found := true }
  | none =>
    match st.current_section with
    | none => st
    | some k =>
      let stripped := pyStrip line
      if fenceSkip stripped then st
      else if stripped ≠ [] then appendBuf st k (line ++ ['\n'])
      else st

/-- The result dict of `parse_response` with its four fixed keys. -/
structure RespResult where
  optimized : Line
  improvements : Line
  edge_cases : Line
  performance : Line
deriving DecidableEq, Repr

/-- Read the field of `r` named by `k`. -/
def getField (r : RespResult) (k : SKey) : Line :=
  match k with
  | .optimized => r.optimized
  | .improvements => r.improvements
  | .edge_cases => r.edge_cases
  | .performance => r.performance

/-- The fixed fallback placeholder `"See raw response for details"`. -/
def fallbackPlaceholder : Line := "See raw response for details".toList

/-- Initial state of the `parse_response` loop. -/
def respInit : RespState := ⟨none, false, [], [], [], []⟩

/-- `parse_response(response)` from src/dax_optimizer.py: the line loop, the
no-section fallback (`response.replace('```dax', '').replace('```', '')
.strip()` into `optimized` plus the placeholder into `improvements`), and the
final per-key `strip()`. -/
def parse_response (response : Line) : RespResult :=
  let st := (splitLines response).foldl respStep respInit
  let r : RespResult :=
    if st.section_found then
      ⟨st.optimized, st.improvements, st.edge_cases, st.performance⟩
    else
      ⟨pyStrip (replaceAll ("```".toList) [] (replaceAll ("```dax".toList) [] response)),
        fallbackPlaceholder, st.edge_cases, st.performance⟩
  ⟨pyStrip r.optimized, pyStrip r.improvements, pyStrip r.edge_cases, pyStrip r.performance⟩

/-! ## Per-record loop of `process_dax_file` (src/dax_optimizer.py lines 264-308)

The external collaborator call is modelled as an oracle outcome per record:
either the reply string of a successful call or the exception text of a
failed one.  `optimize_dax_expression` turns the outcome into the string the
loop sees, exactly as the `try/except` of the source does. -/

/-- Outcome of one external call: a reply string, or a transport failure whose
exception renders as `err`. -/
inductive CallOutcome
  | ok (reply : Line)
  | failure (err : Line)
deriving DecidableEq, Repr

/-- `optimize_dax_expression`: returns the reply on success and
`f"ERROR: {str(e)}"` when the call raised. -/
def optimize_dax_expression (o : CallOutcome) : Line :=
  match o with
  | .ok reply => reply
  | .failure err => "ERROR: ".toList ++ err

/-- One entry of the `results` list built by `process_dax_file`. -/
structure ProcessResult where
  number : Nat
  measure_name : Line
  original : Line
  optimized : Line
  improvements : Line
  edge_cases : Line
  performance : Line
  raw_response : Line
deriving DecidableEq, Repr

/-- One iteration body of the `for i, expr in enumerate(expressions, 1)` loop:
the `result.startswith("ERROR:")` branch, otherwise `parse_response` plus the
all-sections-empty rescue, then the appended result dict. -/
def loopEntry (i : Nat) (expr : DaxRecord) (result : Line) : ProcessResult :=
  let parsed : RespResult :=
    if List.isPrefixOf ("ERROR:".toList) result then
      ⟨[], [], [], "Error occurred: ".toList ++ result⟩
    else
      let p := parse_response result
      if p.optimized = [] ∧ p.improvements = [] ∧ p.edge_cases = [] ∧ p.performance = [] then
        { p with performance :=
            "Raw response:".toList ++ '\n' :: (result.take 500 ++ "...".toList) }
      else p
  ⟨i, expr.measure_name, expr.dax_code, parsed.optimized, parsed.improvements,
    parsed.edge_cases, parsed.performance, result⟩

/-- The whole per-record loop of `process_dax_file`, with the i-th record
paired with the i-th external-call outcome. -/
def process_loop (exprs : List DaxRecord) (outcomes : List CallOutcome) : List ProcessResult :=
  (exprs.zip outcomes).enum.map fun p =>
    loopEntry (p.1 + 1) p.2.1 (optimize_dax_expression p.2.2)

/-! ## Well-formed documents made of identifier+body blocks -/

/-- One well-formed block of the input document: an identifier line followed
by its content lines. -/
structure Block where
  idLine : Line
  contentLines : List Line

/-- The raw lines a block contributes to the document. -/
def blockLines (b : Block) : List Line := b.idLine :: b.contentLines

/-- Well-formedness of a block: the identifier line is newline-free and is
classified as an identifier line (not a header), and each content line is
newline-free, non-blank and matches no other classification rule. -/
def WFBlock (b : Block) : Prop :=
  '\n' ∉ b.idLine ∧ is_header (pyStrip b.idLine) = false ∧
  is_measure_name (pyStrip b.idLine) = true ∧
  b.contentLines ≠ [] ∧
  ∀ c ∈ b.contentLines, '\n' ∉ c ∧ pyStrip c ≠ [] ∧ is_separator (pyStrip c) = false ∧
    is_header (pyStrip c) = false ∧ is_measure_name (pyStrip c) = false

/-- A valid separator line between blocks. -/
def WFSep (s : Line) : Prop := '\n' ∉ s ∧ is_separator (pyStrip s) = true

instance (b : Block) : Decidable (WFBlock b) := by
  unfold WFBlock
  infer_instance

instance (s : Line) : Decidable (WFSep s) := by
  unfold WFSep
  infer_instance

/-- The record the segmenter is expected to emit for a block. -/
def expectedRecord (b : Block) : DaxRecord :=
  ⟨pyStrip b.idLine, joinLines (b.contentLines.map pyStrip)⟩

/-- The line sequence of a document made of a first block followed by
separator-prefixed further blocks. -/
def docLines (first : Block) (rest : List (Line × Block)) : List Line :=
  blockLines first ++ (rest.map fun p => p.1 :: blockLines p.2).flatten

/-- A body all of whose lines are non-blank and free of leading or trailing
whitespace. -/
def GoodBody (d : Line) : Prop := ∀ x ∈ splitLines d, x ≠ [] ∧ pyStrip x = x

/-- Invariant of the `parse_dax_file` loop: every accumulated content line is
non-blank, stripped and newline-free, and every emitted body is good. -/
def SegInv (st : SegState) : Prop :=
  (∀ l ∈ st.current_dax,
    l ≠ [] ∧ l.dropWhile wsChar = l ∧ List.rdropWhile wsChar l = l ∧ '\n' ∉ l) ∧
  ∀ r ∈ st.expressions, GoodBody r.dax_code

/-- Condition of claim C4 (spec wording): the case-folded trimmed line starts
with a recognized phrase, or with a bold-marker pair immediately followed by
the phrase, or with one to three heading-marker characters immediately
followed by the phrase, and contains the phrase. -/
def claimHeadCond (line : Line) : Bool :=
  sections.any fun p =>
    containsSub p.1 (pyStrip (pyUpper line)) &&
      (p.1.isPrefixOf (pyStrip (pyUpper line)) ||
       ("**".toList ++ p.1).isPrefixOf (pyStrip (pyUpper line)) ||
       ([1, 2, 3].any fun n =>
         (List.replicate n '#' ++ p.1).isPrefixOf (pyStrip (pyUpper line))))

/-- Amended condition for C4 (the code's actual rule): the case-folded trimmed
line contains a recognized phrase and starts with the phrase, with a
bold-marker pair immediately followed by the phrase, or with two
heading-marker characters (the phrase may then appear anywhere in the line). -/
def amendedHeadCond (line : Line) : Bool :=
  sections.any fun p =>
    containsSub p.1 (pyStrip (pyUpper line)) &&
      (p.1.isPrefixOf (pyStrip (pyUpper line)) ||
       ("**".toList ++ p.1).isPrefixOf (pyStrip (pyUpper line)) ||
       ("##".toList).isPrefixOf (pyStrip (pyUpper line)))

/-- A fence-delimiter line in the sense of the spec: a line consisting solely
of a fence marker optionally followed by a language tag. -/
def isFenceDelimLine (l : Line) : Bool := fenceSkip (pyStrip l)

/-- The fallback `optimized` value claimed by C5 (spec wording): the raw reply
with all fence-delimiter lines removed, then trimmed. -/
def specFallbackOptimized (response : Line) : Line :=
  pyStrip (joinLines ((splitLines response).filter fun l => !(isFenceDelimLine l)))

/-- Number of newline characters in a string. -/
def nlCount (l : Line) : Nat := l.count '\n'

/-- Number of lines of a piece of extracted text; empty text has no lines. -/
def lineCount (l : Line) : Nat := if l = [] then 0 else (splitLines l).length

/-- Total newline count of the four section buffers. -/
def respMeasure (st : RespState) : Nat :=
  nlCount st.optimized + nlCount st.improvements + nlCount st.edge_cases +
    nlCount st.performance

/-- Invariant of the `parse_response` buffers: every buffer is empty or ends
with a newline. -/
def BufInv (st : RespState) : Prop :=
  ∀ k, getBuf st k = [] ∨ ∃ t, getBuf st k = t ++ ['\n']

/-! ## Library lemmas about the string model -/

theorem dropWhile_fix_of_append {p : Char → Bool} {b s : Line}
    (h : (b ++ s).dropWhile p = b ++ s) : b.dropWhile p = b := by
  cases b with
  | nil => rfl
  | cons c t =>
    cases hpc : p c with
    | false => simp [List.dropWhile_cons, hpc]
    | true =>
      exfalso
      rw [List.cons_append, List.dropWhile_cons_of_pos hpc] at h
      have hsuf : (t ++ s).dropWhile p <:+ (t ++ s) := List.dropWhile_suffix p
      have hle := hsuf.length_le
      rw [h] at hle
      simp at hle

theorem dropWhile_fix_append {p : Char → Bool} {x : Line} (s : Line)
    (hx : x ≠ []) (h : x.dropWhile p = x) : (x ++ s).dropWhile p = x ++ s := by
  rw [List.dropWhile_append, h]
  simp [List.isEmpty_iff, hx]

theorem rdropWhile_fix_append {p : Char → Bool} {J : Line} (x : Line)
    (hJ : J ≠ []) (h : List.rdropWhile p J = J) : List.rdropWhile p (x ++ J) = x ++ J := by
  have h' : (J.reverse).dropWhile p = J.reverse := by
    have := congrArg List.reverse h
    rwa [List.rdropWhile, List.reverse_reverse] at this
  unfold List.rdropWhile
  rw [List.reverse_append, List.dropWhile_append, h']
  simp [List.isEmpty_iff, hJ]

theorem pyStrip_nil : pyStrip [] = [] := rfl

theorem pyStrip_rfix (l : Line) : List.rdropWhile wsChar (pyStrip l) = pyStrip l := by
  unfold pyStrip
  exact List.rdropWhile_idempotent _ _

theorem pyStrip_lfix (l : Line) : (pyStrip l).dropWhile wsChar = pyStrip l := by
  obtain ⟨s, hs⟩ := List.rdropWhile_prefix wsChar (l.dropWhile wsChar)
  have hfix : ((pyStrip l) ++ s).dropWhile wsChar = (pyStrip l) ++ s := by
    unfold pyStrip
    rw [hs]
    exact List.dropWhile_idempotent _ _
  exact dropWhile_fix_of_append hfix

theorem pyStrip_eq_self {l : Line} (h1 : l.dropWhile wsChar = l)
    (h2 : List.rdropWhile wsChar l = l) : pyStrip l = l := by
  unfold pyStrip
  rw [h1, h2]

theorem pyStrip_idem (l : Line) : pyStrip (pyStrip l) = pyStrip l :=
  pyStrip_eq_self (pyStrip_lfix l) (pyStrip_rfix l)

theorem head_not_of_dropWhile_fix {p : Char → Bool} {c : Char} {t : Line}
    (h : (c :: t).dropWhile p = c :: t) : p c = false := by
  cases hpc : p c with
  | false => rfl
  | true =>
    exfalso
    rw [List.dropWhile_cons_of_pos hpc] at h
    have hsuf : t.dropWhile p <:+ t := List.dropWhile_suffix p
    have hle := hsuf.length_le
    rw [h] at hle
    simp at hle

theorem pyStrip_head_not_ws {l : Line} {c : Char} {t : Line}
    (h : pyStrip l = c :: t) : wsChar c = false := by
  have := pyStrip_lfix l
  rw [h] at this
  exact head_not_of_dropWhile_fix this

theorem pyStrip_sublist (l : Line) : List.Sublist (pyStrip l) l :=
  ((List.rdropWhile_prefix wsChar (l.dropWhile wsChar)).sublist).trans
    (List.dropWhile_suffix wsChar).sublist

theorem pyStrip_concat_ws {c : Char} (hc : wsChar c = true) (t : Line) :
    pyStrip (t ++ [c]) = pyStrip t := by
  unfold pyStrip
  rw [List.dropWhile_append]
  by_cases he : (t.dropWhile wsChar).isEmpty
  · rw [if_pos he]
    rw [List.isEmpty_iff] at he
    rw [he]
    simp [List.dropWhile_cons, hc, List.dropWhile_nil, List.rdropWhile_nil]
  · rw [if_neg he]
    exact List.rdropWhile_concat_pos wsChar _ c hc

theorem joinLines_cons_cons (x y : Line) (ls : List Line) :
    joinLines (x :: y :: ls) = x ++ '\n' :: joinLines (y :: ls) := rfl

/-- Joining non-empty lines that are all stripped produces a non-empty
stripped string. -/
theorem joinLines_stripped : ∀ ls : List Line, ls ≠ [] →
    (∀ x ∈ ls, x ≠ [] ∧ x.dropWhile wsChar = x ∧ List.rdropWhile wsChar x = x) →
    joinLines ls ≠ [] ∧ (joinLines ls).dropWhile wsChar = joinLines ls ∧
      List.rdropWhile wsChar (joinLines ls) = joinLines ls
  | [], h, _ => absurd rfl h
  | [x], _, hall => by
    have hx := hall x (by simp)
    simpa [joinLines] using hx
  | x :: y :: ls, _, hall => by
    have hx := hall x (by simp)
    have ih := joinLines_stripped (y :: ls) (by simp)
      (fun z hz => hall z (List.mem_cons_of_mem x hz))
    rw [joinLines_cons_cons]
    refine ⟨?_, ?_, ?_⟩
    · intro hcontra
      exact hx.1 (List.append_eq_nil.mp hcontra).1
    · exact dropWhile_fix_append _ hx.1 hx.2.1
    · have : x ++ '\n' :: joinLines (y :: ls) = (x ++ ['\n']) ++ joinLines (y :: ls) := by
        simp
      rw [this]
      exact rdropWhile_fix_append _ ih.1 ih.2.2

theorem splitLines_ne_nil (c : Line) : splitLines c ≠ [] := by
  induction c with
  | nil => simp [splitLines]
  | cons a cs ih =>
    unfold splitLines
    by_cases ha : a = '\n'
    · simp [ha]
    · rw [if_neg ha]
      cases h : splitLines cs with
      | nil => simp
      | cons l ls => simp

theorem mem_splitLines_no_nl : ∀ {c : Line} {l : Line}, l ∈ splitLines c → '\n' ∉ l := by
  intro c
  induction c with
  | nil =>
    intro l hl
    simp [splitLines] at hl
    simp [hl]
  | cons a cs ih =>
    intro l hl
    unfold splitLines at hl
    by_cases ha : a = '\n'
    · rw [if_pos ha] at hl
      rcases List.mem_cons.mp hl with h | h
      · simp [h]
      · exact ih h
    · rw [if_neg ha] at hl
      cases hsp : splitLines cs with
      | nil => exact absurd hsp (splitLines_ne_nil cs)
      | cons m ms =>
        rw [hsp] at hl
        rcases List.mem_cons.mp hl with h | h
        · subst h
          intro hmem
          rcases List.mem_cons.mp hmem with h | h
          · exact ha h.symm
          · exact ih (hsp ▸ List.mem_cons_self m ms) h
        · exact ih (hsp ▸ List.mem_cons_of_mem m h)

theorem splitLines_append_no_nl : ∀ (a b : Line), '\n' ∉ a →
    ∀ {h : Line} {t : List Line}, splitLines b = h :: t →
    splitLines (a ++ b) = (a ++ h) :: t := by
  intro a
  induction a with
  | nil =>
    intro b _ h t hb
    simpa using hb
  | cons c a' ih =>
    intro b hnl h t hb
    have hc : c ≠ '\n' := fun hcn => hnl (hcn ▸ List.mem_cons_self c a')
    have ha' : '\n' ∉ a' := fun hmem => hnl (List.mem_cons_of_mem c hmem)
    have hrec := ih b ha' hb
    rw [List.cons_append]
    unfold splitLines
    rw [if_neg hc, hrec]
    simp

theorem splitLines_single {a : Line} (ha : '\n' ∉ a) : splitLines a = [a] := by
  have : splitLines ([] : Line) = [] :: [] := rfl
  have h := splitLines_append_no_nl a [] ha this
  simpa using h

theorem splitLines_cons_nl (cs : Line) : splitLines ('\n' :: cs) = [] :: splitLines cs := by
  simp [splitLines]

theorem splitLines_joinLines : ∀ ls : List Line, ls ≠ [] →
    (∀ l ∈ ls, '\n' ∉ l) → splitLines (joinLines ls) = ls
  | [], h, _ => absurd rfl h
  | [x], _, hnl => by
    simpa [joinLines] using splitLines_single (hnl x (by simp))
  | x :: y :: ls, _, hnl => by
    have ih := splitLines_joinLines (y :: ls) (by simp)
      (fun z hz => hnl z (List.mem_cons_of_mem x hz))
    rw [joinLines_cons_cons]
    have h2 : splitLines ('\n' :: joinLines (y :: ls)) = [] :: (y :: ls) := by
      rw [splitLines_cons_nl, ih]
    have h3 := splitLines_append_no_nl x ('\n' :: joinLines (y :: ls)) (hnl x (by simp)) h2
    simpa using h3

theorem length_splitLines (c : Line) : (splitLines c).length = c.count '\n' + 1 := by
  induction c with
  | nil => simp [splitLines]
  | cons a cs ih =>
    unfold splitLines
    by_cases ha : a = '\n'
    · subst ha
      simp [List.count_cons, ih]
    · rw [if_neg ha]
      cases hsp : splitLines cs with
      | nil => exact absurd hsp (splitLines_ne_nil cs)
      | cons m ms =>
        rw [hsp] at ih
        simp only [List.length_cons] at ih ⊢
        rw [List.count_cons]
        simp [ha, ih]

/-! ## Segmenter lemmas -/

theorem is_measure_name_ne_nil {s : Line} (h : is_measure_name s = true) : s ≠ [] := by
  intro hs
  subst hs
  simp [is_measure_name, List.isPrefixOf] at h

theorem measure_not_separator {s : Line} (h : is_measure_name s = true) :
    is_separator s = false := by
  cases s with
  | nil => simp [is_measure_name, List.isPrefixOf] at h
  | cons c t =>
    by_cases hc : c = '['
    · subst hc
      simp [is_separator]
    · simp [is_measure_name, List.isPrefixOf] at h
      exact absurd h.1.symm hc

theorem parseStep_sep {st : SegState} {line : Line}
    (h : is_separator (pyStrip line) = true) :
    parseStep st line = ⟨none, [], false, flushInto st⟩ := by
  simp [parseStep, h]

theorem parseStep_skip_header {st : SegState} {line : Line}
    (hs : is_separator (pyStrip line) = false) (hh : is_header (pyStrip line) = true) :
    parseStep st line = st := by
  simp [parseStep, hs, hh]

theorem parseStep_measure {st : SegState} {line : Line}
    (hh : is_header (pyStrip line) = false) (hm : is_measure_name (pyStrip line) = true) :
    parseStep st line = ⟨some (pyStrip line), [], true, flushInto st⟩ := by
  simp [parseStep, measure_not_separator hm, hh, hm]

theorem parseStep_content {st : SegState} {line : Line}
    (hne : pyStrip line ≠ []) (hs : is_separator (pyStrip line) = false)
    (hh : is_header (pyStrip line) = false) (hm : is_measure_name (pyStrip line) = false)
    (hb : st.in_dax_block = true) :
    parseStep st line =
      ⟨st.current_measure, st.current_dax ++ [pyStrip line], st.in_dax_block, st.expressions⟩ := by
  simp [parseStep, hs, hh, hm, hne, hb]

theorem flushInto_none {d : List Line} {b : Bool} {E : List DaxRecord} :
    flushInto ⟨none, d, b, E⟩ = E := rfl

theorem flushInto_empty_dax {m : Line} {b : Bool} {E : List DaxRecord} :
    flushInto ⟨some m, [], b, E⟩ = E := by
  simp [flushInto]

theorem flushInto_open {m : Line} {cs : List Line} {b : Bool} {E : List DaxRecord}
    (hm : m ≠ []) (hcs : cs ≠ [])
    (hall : ∀ x ∈ cs, x ≠ [] ∧ x.dropWhile wsChar = x ∧ List.rdropWhile wsChar x = x) :
    flushInto ⟨some m, cs, b, E⟩ = E ++ [⟨m, joinLines cs⟩] := by
  have hj := joinLines_stripped cs hcs hall
  have hstrip : pyStrip (joinLines cs) = joinLines cs := pyStrip_eq_self hj.2.1 hj.2.2
  simp [flushInto, hm, hcs, hstrip, hj.1]

theorem foldl_content {m : Option Line} {E : List DaxRecord} : ∀ (cs : List Line) (d : List Line),
    (∀ c ∈ cs, pyStrip c ≠ [] ∧ is_separator (pyStrip c) = false ∧
      is_header (pyStrip c) = false ∧ is_measure_name (pyStrip c) = false) →
    List.foldl parseStep ⟨m, d, true, E⟩ cs = ⟨m, d ++ cs.map pyStrip, true, E⟩
  | [], d, _ => by simp
  | c :: cs, d, hall => by
    have hc := hall c (by simp)
    rw [List.foldl_cons, parseStep_content hc.1 hc.2.1 hc.2.2.1 hc.2.2.2 rfl]
    dsimp only
    have ih : List.foldl parseStep ⟨m, d ++ [pyStrip c], true, E⟩ cs =
        ⟨m, (d ++ [pyStrip c]) ++ cs.map pyStrip, true, E⟩ :=
      foldl_content cs (d ++ [pyStrip c])
        (fun x hx => hall x (List.mem_cons_of_mem c hx))
    rw [ih]
    simp

theorem contents_stripped {b : Block} (hb : WFBlock b) :
    ∀ x ∈ b.contentLines.map pyStrip,
      x ≠ [] ∧ x.dropWhile wsChar = x ∧ List.rdropWhile wsChar x = x := by
  intro x hx
  obtain ⟨c, hc, rfl⟩ := List.mem_map.mp hx
  exact ⟨(hb.2.2.2.2 c hc).2.1, pyStrip_lfix c, pyStrip_rfix c⟩

theorem expectedRecord_ne_nil {b : Block} (hb : WFBlock b) :
    (expectedRecord b).measure_name ≠ [] ∧ (expectedRecord b).dax_code ≠ [] := by
  constructor
  · exact is_measure_name_ne_nil hb.2.2.1
  · exact (joinLines_stripped _ (by simp [hb.2.2.2.1]) (contents_stripped hb)).1

theorem foldl_block {b : Block} {E : List DaxRecord} (hb : WFBlock b) :
    List.foldl parseStep ⟨none, [], false, E⟩ (blockLines b) =
      ⟨some (pyStrip b.idLine), b.contentLines.map pyStrip, true, E⟩ := by
  unfold blockLines
  rw [List.foldl_cons, parseStep_measure hb.2.1 hb.2.2.1, flushInto_none,
    foldl_content b.contentLines []
      (fun c hc => ⟨(hb.2.2.2.2 c hc).2.1, (hb.2.2.2.2 c hc).2.2.1,
        (hb.2.2.2.2 c hc).2.2.2.1, (hb.2.2.2.2 c hc).2.2.2.2⟩)]
  simp

theorem flushInto_openState {b : Block} {E : List DaxRecord} (hb : WFBlock b) :
    flushInto ⟨some (pyStrip b.idLine), b.contentLines.map pyStrip, true, E⟩ =
      E ++ [expectedRecord b] :=
  flushInto_open (is_measure_name_ne_nil hb.2.2.1) (by simp [hb.2.2.2.1])
    (contents_stripped hb)

theorem foldl_rest : ∀ (rest : List (Line × Block)) (b : Block) (E : List DaxRecord),
    WFBlock b → (∀ p ∈ rest, WFSep p.1 ∧ WFBlock p.2) →
    flushInto (List.foldl parseStep
      ⟨some (pyStrip b.idLine), b.contentLines.map pyStrip, true, E⟩
      ((rest.map fun p => p.1 :: blockLines p.2).flatten)) =
    E ++ (b :: rest.map Prod.snd).map expectedRecord
  | [], b, E, hb, _ => by
    simpa using flushInto_openState hb
  | (s, b') :: rest, b, E, hb, hall => by
    have hsep := (hall (s, b') (by simp)).1
    have hb' := (hall (s, b') (by simp)).2
    rw [List.map_cons, List.flatten_cons, List.cons_append, List.foldl_cons,
      parseStep_sep hsep.2, flushInto_openState hb, List.foldl_append,
      foldl_block hb']
    have ih := foldl_rest rest b' (E ++ [expectedRecord b]) hb'
      (fun p hp => hall p (List.mem_cons_of_mem _ hp))
    rw [ih]
    simp

theorem docLines_no_nl {first : Block} {rest : List (Line × Block)}
    (h1 : WFBlock first) (h2 : ∀ p ∈ rest, WFSep p.1 ∧ WFBlock p.2) :
    ∀ l ∈ docLines first rest, '\n' ∉ l := by
  intro l hl
  unfold docLines blockLines at hl
  rcases List.mem_append.mp hl with h | h
  · rcases List.mem_cons.mp h with rfl | h
    · exact h1.1
    · exact (h1.2.2.2.2 l h).1
  · obtain ⟨sub, hsub, hmem⟩ := List.mem_flatten.mp h
    obtain ⟨p, hp, rfl⟩ := List.mem_map.mp hsub
    rcases List.mem_cons.mp hmem with rfl | hmem2
    · exact (h2 p hp).1.1
    · rcases List.mem_cons.mp hmem2 with rfl | h3
      · exact (h2 p hp).2.1
      · exact ((h2 p hp).2.2.2.2.2 l h3).1

/-- C1: a document made of N well-formed identifier+body blocks separated by
valid separator lines segments into exactly the N expected records, in source
order, each with a non-empty identifier and a non-empty trimmed body. -/
theorem C1_segment_wellformed_blocks (first : Block) (rest : List (Line × Block))
    (h1 : WFBlock first) (h2 : ∀ p ∈ rest, WFSep p.1 ∧ WFBlock p.2) :
    parse_dax_file (joinLines (docLines first rest)) =
      (first :: rest.map Prod.snd).map expectedRecord ∧
    ∀ r ∈ (first :: rest.map Prod.snd).map expectedRecord,
      r.measure_name ≠ [] ∧ r.dax_code ≠ [] := by
  constructor
  · have hne : docLines first rest ≠ [] := by simp [docLines, blockLines]
    rw [parse_dax_file, splitLines_joinLines _ hne (docLines_no_nl h1 h2)]
    unfold parse_dax_lines initState docLines
    rw [List.foldl_append, foldl_block h1, foldl_rest rest first [] h1 h2]
    simp
  · intro r hr
    rcases List.mem_map.mp hr with ⟨b, hb, rfl⟩
    rcases List.mem_cons.mp hb with rfl | hb2
    · exact expectedRecord_ne_nil h1
    · obtain ⟨p, hp, rfl⟩ := List.mem_map.mp hb2
      exact expectedRecord_ne_nil (h2 p hp).2

/-- Witness for C1 at a concrete two-block document. -/
theorem C1_segment_wellformed_blocks_witness :
    WFBlock ⟨"[Measure].[Total Sales]".toList, ["SUM(Sales[Amount])".toList]⟩ ∧
    (parse_dax_file (joinLines (docLines
        ⟨"[Measure].[Total Sales]".toList, ["SUM(Sales[Amount])".toList]⟩
        [("----------".toList, ⟨"[Measure].[Qty]".toList, ["COUNTROWS(Sales)".toList]⟩)])) =
      ((⟨"[Measure].[Total Sales]".toList, ["SUM(Sales[Amount])".toList]⟩ :
          Block) ::
        [("----------".toList,
          (⟨"[Measure].[Qty]".toList, ["COUNTROWS(Sales)".toList]⟩ : Block))].map
            Prod.snd).map expectedRecord ∧
      ∀ r ∈ ((⟨"[Measure].[Total Sales]".toList, ["SUM(Sales[Amount])".toList]⟩ :
          Block) ::
        [("----------".toList,
          (⟨"[Measure].[Qty]".toList, ["COUNTROWS(Sales)".toList]⟩ : Block))].map
            Prod.snd).map expectedRecord,
        r.measure_name ≠ [] ∧ r.dax_code ≠ []) :=
  ⟨by decide,
    C1_segment_wellformed_blocks
      ⟨"[Measure].[Total Sales]".toList, ["SUM(Sales[Amount])".toList]⟩
      [("----------".toList, ⟨"[Measure].[Qty]".toList, ["COUNTROWS(Sales)".toList]⟩)]
      (by decide) (by decide)⟩

/-- C2 counterexample: a trimmed line starting with `[` and containing `]`
that also contains the skip-marker `DAX MEASURES` is discarded as a header by
`parse_dax_file`; it does not open a record, so a document consisting of that
line and a content line yields no record at all. -/
theorem C2_counterexample :
    is_measure_name (pyStrip ("[DAX MEASURES].[A]".toList)) = true ∧
    is_header (pyStrip ("[DAX MEASURES].[A]".toList)) = true ∧
    parse_dax_file (joinLines ["[DAX MEASURES].[A]".toList, "SUM(X)".toList]) = [] := by
  decide

/-- C2 amended: a trimmed line starting with `[` and containing `]` can never
match the separator rule; when it does not contain a header skip-marker it is
detected as an identifier line (it flushes any complete open record and opens
a new record named by its trimmed text); when it does contain a skip-marker
the header check fires first and the line is discarded with no state change. -/
theorem C2_identifier_priority (st : SegState) (line : Line) :
    (is_measure_name (pyStrip line) = true → is_separator (pyStrip line) = false) ∧
    (is_measure_name (pyStrip line) = true → is_header (pyStrip line) = false →
      parseStep st line = ⟨some (pyStrip line), [], true, flushInto st⟩) ∧
    (is_separator (pyStrip line) = false → is_header (pyStrip line) = true →
      parseStep st line = st) :=
  ⟨fun hm => measure_not_separator hm,
   fun hm hh => parseStep_measure hh hm,
   fun hs hh => parseStep_skip_header hs hh⟩

/-- Witness for C2 (amended) at a concrete identifier line. -/
theorem C2_identifier_priority_witness :
    is_measure_name (pyStrip ("[Measure].[A]".toList)) = true ∧
    parseStep initState ("[Measure].[A]".toList) =
      ⟨some (pyStrip ("[Measure].[A]".toList)), [], true, flushInto initState⟩ :=
  ⟨by decide,
    (C2_identifier_priority initState ("[Measure].[A]".toList)).2.1 (by decide) (by decide)⟩

/-- C3: an identifier line immediately followed by another identifier line
contributes no record for the first identifier (the empty body is dropped) and
leaves exactly the state the second identifier line alone would produce: a
fresh open record with an empty body. -/
theorem C3_consecutive_identifier_lines (st : SegState) (id1 id2 : Line)
    (pre suf : List Line)
    (h1h : is_header (pyStrip id1) = false) (h1m : is_measure_name (pyStrip id1) = true)
    (h2h : is_header (pyStrip id2) = false) (h2m : is_measure_name (pyStrip id2) = true) :
    parseStep (parseStep st id1) id2 = parseStep st id2 ∧
    parse_dax_lines (pre ++ id1 :: id2 :: suf) = parse_dax_lines (pre ++ id2 :: suf) := by
  have key : ∀ s : SegState, parseStep (parseStep s id1) id2 = parseStep s id2 := by
    intro s
    rw [parseStep_measure h1h h1m, parseStep_measure h2h h2m, parseStep_measure h2h h2m,
      flushInto_empty_dax]
  refine ⟨key st, ?_⟩
  have hfold : List.foldl parseStep initState (pre ++ id1 :: id2 :: suf) =
      List.foldl parseStep initState (pre ++ id2 :: suf) := by
    rw [List.foldl_append, List.foldl_append, List.foldl_cons, List.foldl_cons,
      List.foldl_cons, key]
  rw [parse_dax_lines, parse_dax_lines, hfold]

/-- Witness for C3 at two concrete identifier lines. -/
theorem C3_consecutive_identifier_lines_witness :
    is_measure_name (pyStrip ("[A].[x]".toList)) = true ∧
    parse_dax_lines ([] ++ "[A].[x]".toList :: "[B].[y]".toList :: ["body".toList]) =
      parse_dax_lines ([] ++ "[B].[y]".toList :: ["body".toList]) :=
  ⟨by decide,
    (C3_consecutive_identifier_lines initState ("[A].[x]".toList) ("[B].[y]".toList)
      [] ["body".toList] (by decide) (by decide) (by decide) (by decide)).2⟩

theorem flushInto_eq_none {st : SegState} (hcm : st.current_measure = none) :
    flushInto st = st.expressions := by
  unfold flushInto
  rw [hcm]

theorem flushInto_eq_some {st : SegState} {m : Line} (hcm : st.current_measure = some m) :
    flushInto st =
      if m = [] then st.expressions
      else if st.current_dax = [] then st.expressions
      else if pyStrip (joinLines st.current_dax) = [] then st.expressions
      else st.expressions ++ [⟨m, pyStrip (joinLines st.current_dax)⟩] := by
  unfold flushInto
  rw [hcm]

theorem flushInto_good {st : SegState} (hst : SegInv st) :
    ∀ r ∈ flushInto st, GoodBody r.dax_code := by
  intro r hr
  cases hcm : st.current_measure with
  | none =>
    rw [flushInto_eq_none hcm] at hr
    exact hst.2 r hr
  | some m =>
    rw [flushInto_eq_some hcm] at hr
    by_cases h1 : m = []
    · rw [if_pos h1] at hr
      exact hst.2 r hr
    · rw [if_neg h1] at hr
      by_cases h2 : st.current_dax = []
      · rw [if_pos h2] at hr
        exact hst.2 r hr
      · rw [if_neg h2] at hr
        have hall : ∀ x ∈ st.current_dax,
            x ≠ [] ∧ x.dropWhile wsChar = x ∧ List.rdropWhile wsChar x = x :=
          fun x hx => ⟨(hst.1 x hx).1, (hst.1 x hx).2.1, (hst.1 x hx).2.2.1⟩
        have hj := joinLines_stripped st.current_dax h2 hall
        have hstrip : pyStrip (joinLines st.current_dax) = joinLines st.current_dax :=
          pyStrip_eq_self hj.2.1 hj.2.2
        rw [hstrip, if_neg hj.1] at hr
        rcases List.mem_append.mp hr with h | h
        · exact hst.2 r h
        · simp at h
          subst h
          intro x hx
          rw [splitLines_joinLines st.current_dax h2
            (fun l hl => (hst.1 l hl).2.2.2)] at hx
          exact ⟨(hst.1 x hx).1, pyStrip_eq_self (hst.1 x hx).2.1 (hst.1 x hx).2.2.1⟩

theorem parseStep_inv {st : SegState} {line : Line}
    (hnl : '\n' ∉ line) (hst : SegInv st) : SegInv (parseStep st line) := by
  by_cases hs : is_separator (pyStrip line) = true
  · rw [parseStep_sep hs]
    exact ⟨by simp, flushInto_good hst⟩
  · have hs' : is_separator (pyStrip line) = false := by simpa using hs
    by_cases hh : is_header (pyStrip line) = true
    · rw [parseStep_skip_header hs' hh]
      exact hst
    · have hh' : is_header (pyStrip line) = false := by simpa using hh
      by_cases hm : is_measure_name (pyStrip line) = true
      · rw [parseStep_measure hh' hm]
        exact ⟨by simp, flushInto_good hst⟩
      · have hm' : is_measure_name (pyStrip line) = false := by simpa using hm
        by_cases hne : pyStrip line = []
        · have hid : parseStep st line = st := by
            have e1 : is_separator ([] : Line) = false := by decide
            have e2 : is_header ([] : Line) = false := by decide
            have e3 : is_measure_name ([] : Line) = false := by decide
            simp [parseStep, hne, e1, e2, e3]
          rw [hid]
          exact hst
        · by_cases hb : st.in_dax_block = true
          · rw [parseStep_content hne hs' hh' hm' hb]
            refine ⟨?_, hst.2⟩
            intro l hl
            rcases List.mem_append.mp hl with h | h
            · exact hst.1 l h
            · simp at h
              subst h
              exact ⟨hne, pyStrip_lfix line, pyStrip_rfix line,
                fun hmem => hnl ((pyStrip_sublist line).subset hmem)⟩
          · have hid : parseStep st line = st := by
              simp [parseStep, hs', hh', hm', hb]
            rw [hid]
            exact hst

theorem foldl_seg_inv : ∀ (lines : List Line) (st : SegState),
    (∀ l ∈ lines, '\n' ∉ l) → SegInv st → SegInv (List.foldl parseStep st lines)
  | [], st, _, hst => hst
  | l :: ls, st, hnl, hst => by
    rw [List.foldl_cons]
    exact foldl_seg_inv ls _ (fun x hx => hnl x (List.mem_cons_of_mem l hx))
      (parseStep_inv (hnl l (by simp)) hst)

/-- C9: every record emitted by the segmenter has a body whose lines are all
non-empty and carry no leading or trailing whitespace (blank lines between
content lines and original indentation are never preserved). -/
theorem C9_emitted_bodies_stripped (content : Line) :
    ∀ r ∈ parse_dax_file content, ∀ x ∈ splitLines r.dax_code,
      x ≠ [] ∧ pyStrip x = x := by
  intro r hr
  rw [parse_dax_file, parse_dax_lines] at hr
  have hinv : SegInv (List.foldl parseStep initState (splitLines content)) :=
    foldl_seg_inv _ _ (fun l hl => mem_splitLines_no_nl hl)
      ⟨by simp [initState], by simp [initState]⟩
  exact flushInto_good hinv r hr

/-- Witness for C9 at a concrete document with indented content and an
interior blank line. -/
theorem C9_emitted_bodies_stripped_witness :
    (⟨"[M].[A]".toList, "x y\nz".toList⟩ : DaxRecord) ∈
      parse_dax_file ("[M].[A]\n  x y \n\n z\n".toList) ∧
    "x y".toList ∈ splitLines ("x y\nz".toList) ∧
    ("x y".toList ≠ [] ∧ pyStrip ("x y".toList) = "x y".toList) :=
  ⟨by decide, by decide,
    C9_emitted_bodies_stripped ("[M].[A]\n  x y \n\n z\n".toList)
      ⟨"[M].[A]".toList, "x y\nz".toList⟩ (by decide) ("x y".toList) (by decide)⟩

/-! ## ResponseExtractor lemmas -/

theorem respStep_header {st : RespState} {l : Line} {k : SKey}
    (hk : headerKey l = some k) :
    respStep st l = { st with current_section := some k, section_found := true } := by
  unfold respStep
  rw [hk]

theorem appendBuf_sf (st : RespState) (k : SKey) (v : Line) :
    (appendBuf st k v).section_found = st.section_found := by
  cases k <;> rfl

theorem appendBuf_cs (st : RespState) (k : SKey) (v : Line) :
    (appendBuf st k v).current_section = st.current_section := by
  cases k <;> rfl

theorem getBuf_appendBuf_ne {j k : SKey} (st : RespState) (v : Line) (h : j ≠ k) :
    getBuf (appendBuf st j v) k = getBuf st k := by
  cases j <;> cases k <;> first | rfl | exact absurd rfl h

theorem getBuf_appendBuf_eq (st : RespState) (k : SKey) (v : Line) :
    getBuf (appendBuf st k v) k = getBuf st k ++ v := by
  cases k <;> rfl

theorem getBuf_update (st : RespState) (o : Option SKey) (b : Bool) (k : SKey) :
    getBuf { st with current_section := o, section_found := b } k = getBuf st k := by
  cases k <;> rfl

theorem respMeasure_appendBuf (st : RespState) (k : SKey) (v : Line) :
    respMeasure (appendBuf st k v) = respMeasure st + nlCount v := by
  cases k <;> simp [appendBuf, respMeasure, nlCount] <;> omega

theorem respStep_eq_of_none {st : RespState} {l : Line} (hk : headerKey l = none) :
    respStep st l = st ∨
      ∃ k, st.current_section = some k ∧ respStep st l = appendBuf st k (l ++ ['\n']) := by
  unfold respStep
  rw [hk]
  cases hcs : st.current_section with
  | none => exact Or.inl rfl
  | some k =>
    by_cases hf : fenceSkip (pyStrip l) = true
    · refine Or.inl ?_
      dsimp only
      rw [if_pos hf]
    · by_cases hne : pyStrip l = []
      · refine Or.inl ?_
        dsimp only
        rw [if_neg hf, if_neg (by simp [hne])]
      · refine Or.inr ⟨k, rfl, ?_⟩
        dsimp only
        rw [if_neg hf, if_pos hne]

theorem respStep_none_none {st : RespState} {l : Line}
    (hk : headerKey l = none) (hcs : st.current_section = none) :
    respStep st l = st := by
  unfold respStep
  rw [hk, hcs]

theorem foldl_resp_no_header : ∀ (lines : List Line) (st : RespState),
    (∀ l ∈ lines, headerKey l = none) → st.current_section = none →
    List.foldl respStep st lines = st
  | [], _, _, _ => rfl
  | l :: ls, st, hall, hcs => by
    rw [List.foldl_cons, respStep_none_none (hall l (by simp)) hcs]
    exact foldl_resp_no_header ls st (fun x hx => hall x (List.mem_cons_of_mem l hx)) hcs

theorem foldl_section_found : ∀ (lines : List Line) (st : RespState),
    (List.foldl respStep st lines).section_found =
      (st.section_found || lines.any fun l => (headerKey l).isSome)
  | [], st => by simp
  | l :: ls, st => by
    rw [List.foldl_cons, foldl_section_found ls]
    cases hk : headerKey l with
    | some j =>
      rw [respStep_header hk]
      simp [hk]
    | none =>
      have hsf : (respStep st l).section_found = st.section_found := by
        rcases @respStep_eq_of_none st l hk with heq | ⟨j, _, heq⟩
        · rw [heq]
        · rw [heq, appendBuf_sf]
      rw [hsf]
      simp [hk, Bool.or_assoc]

theorem prefix_two_of_three {lu : Line}
    (h : List.isPrefixOf ("###".toList) lu = true) :
    List.isPrefixOf ("##".toList) lu = true := by
  rw [List.isPrefixOf_iff_prefix] at h ⊢
  exact List.IsPrefix.trans (by decide) h

theorem headerMatches_eq_amended (lu h : Line) :
    headerMatches lu h =
      (containsSub h lu &&
        (h.isPrefixOf lu || ("**".toList ++ h).isPrefixOf lu ||
          ("##".toList).isPrefixOf lu)) := by
  unfold headerMatches
  by_cases h3 : List.isPrefixOf ("###".toList) lu = true
  · rw [h3, prefix_two_of_three h3]
    simp
  · have h3' : List.isPrefixOf ("###".toList) lu = false := by
      rw [Bool.eq_false_iff]
      exact h3
    rw [h3']
    simp

/-- C4 (amended): a reply line sets the current section label exactly when its
case-folded trimmed text contains a recognized phrase and starts with that
phrase, with a bold-marker pair immediately followed by the phrase, or with
two heading-marker characters (phrase anywhere); a header line only updates
the section label and is never appended to any section buffer. -/
theorem C4_header_detection (line : Line) (st : RespState) :
    ((headerKey line).isSome = amendedHeadCond line) ∧
    ∀ k, headerKey line = some k →
      respStep st line = { st with current_section := some k, section_found := true } := by
  constructor
  · unfold headerKey amendedHeadCond
    rw [Option.isSome_map']
    rw [Bool.eq_iff_iff]
    simp only [List.find?_isSome, List.any_eq_true, headerMatches_eq_amended]
  · exact fun k hk => respStep_header hk

/-- Witness for C4 (amended) at a concrete header line. -/
theorem C4_header_detection_witness :
    ((headerKey ("OPTIMIZED DAX:".toList)).isSome =
      amendedHeadCond ("OPTIMIZED DAX:".toList)) ∧
    respStep respInit ("OPTIMIZED DAX:".toList) =
      { respInit with current_section := some SKey.optimized, section_found := true } :=
  ⟨(C4_header_detection ("OPTIMIZED DAX:".toList) respInit).1,
    (C4_header_detection ("OPTIMIZED DAX:".toList) respInit).2 SKey.optimized (by decide)⟩

/-- C4 counterexample: a line made of a single heading marker immediately
followed by a recognized phrase satisfies the claim's condition but does not
set any section label (the code requires the phrase itself, a bold pair, or at
least two heading markers at the start), so the claimed equivalence fails. -/
theorem C4_counterexample :
    claimHeadCond ("#OPTIMIZED DAX:".toList) = true ∧
    headerKey ("#OPTIMIZED DAX:".toList) = none ∧
    respStep respInit ("#OPTIMIZED DAX:".toList) = respInit := by
  decide

theorem pyStrip_fallbackPlaceholder : pyStrip fallbackPlaceholder = fallbackPlaceholder := by
  decide

/-- C5 (amended): when no recognized header matches any reply line, the
result places the reply into `optimized` after deleting every occurrence of
the `dax`-tagged fence marker and then every occurrence of the bare fence
marker as substrings (not merely fence-delimiter lines) and trimming, sets
`improvements` to the fixed placeholder, and leaves the other two fields
empty; no failure is possible. -/
theorem C5_fallback_no_header (response : Line)
    (h : ∀ l ∈ splitLines response, headerKey l = none) :
    parse_response response =
      ⟨pyStrip (replaceAll ("```".toList) [] (replaceAll ("```dax".toList) [] response)),
        fallbackPlaceholder, [], []⟩ := by
  simp only [parse_response]
  rw [foldl_resp_no_header (splitLines response) respInit h rfl]
  simp [respInit, pyStrip_idem, pyStrip_fallbackPlaceholder, pyStrip_nil]

/-- Witness for C5 (amended) at a concrete header-free reply. -/
theorem C5_fallback_no_header_witness :
    (∀ l ∈ splitLines ("hello\nworld".toList), headerKey l = none) ∧
    parse_response ("hello\nworld".toList) =
      ⟨pyStrip (replaceAll ("```".toList) []
          (replaceAll ("```dax".toList) [] ("hello\nworld".toList))),
        fallbackPlaceholder, [], []⟩ :=
  ⟨by decide, C5_fallback_no_header ("hello\nworld".toList) (by decide)⟩

/-- C5 counterexample: for the header-free reply `a ``` b` there is no
fence-delimiter line, so the claim predicts `optimized` is the whole trimmed
reply; the code instead deletes the fence marker as a substring and returns
`a  b`. -/
theorem C5_counterexample :
    ((splitLines ("a ``` b".toList)).all fun l => (headerKey l).isNone) = true ∧
    specFallbackOptimized ("a ``` b".toList) = "a ``` b".toList ∧
    (parse_response ("a ``` b".toList)).optimized = "a  b".toList ∧
    "a  b".toList ≠ "a ``` b".toList := by
  decide

theorem foldl_buf_empty : ∀ (lines : List Line) (st : RespState) (k : SKey),
    (∀ l ∈ lines, headerKey l ≠ some k) →
    getBuf st k = [] → st.current_section ≠ some k →
    getBuf (List.foldl respStep st lines) k = [] ∧
    (List.foldl respStep st lines).current_section ≠ some k
  | [], _, _, _, hbuf, hcs => ⟨hbuf, hcs⟩
  | l :: ls, st, k, hall, hbuf, hcs => by
    rw [List.foldl_cons]
    have htail : ∀ x ∈ ls, headerKey x ≠ some k :=
      fun x hx => hall x (List.mem_cons_of_mem l hx)
    cases hk : headerKey l with
    | some j =>
      have hj : j ≠ k := fun e => hall l (by simp) (e ▸ hk)
      rw [respStep_header hk]
      exact foldl_buf_empty ls _ k htail
        (by rw [getBuf_update]; exact hbuf)
        (by simpa using hj)
    | none =>
      rcases @respStep_eq_of_none st l hk with heq | ⟨j, hcsj, heq⟩
      · rw [heq]
        exact foldl_buf_empty ls st k htail hbuf hcs
      · have hj : j ≠ k := fun e => hcs (e ▸ hcsj)
        rw [heq]
        exact foldl_buf_empty ls _ k htail
          (by rw [getBuf_appendBuf_ne st _ hj]; exact hbuf)
          (by rw [appendBuf_cs, hcsj]; simpa using hj)

theorem getField_parse_response_found {response : Line}
    (hsf : ((splitLines response).foldl respStep respInit).section_found = true)
    (k : SKey) :
    getField (parse_response response) k =
      pyStrip (getBuf ((splitLines response).foldl respStep respInit) k) := by
  cases k <;> (simp only [parse_response, getField, getBuf]; rw [if_pos hsf])

/-- C6 (amended): the result always carries exactly the four fixed fields;
whenever at least one recognized header matched somewhere in the reply, every
field none of whose headers matched any line is the empty string.  (In the
no-header fallback, `optimized` and `improvements` are instead filled with the
cleaned reply and the placeholder.) -/
theorem C6_missing_section_empty (response : Line) (k : SKey)
    (hfound : ((splitLines response).any fun l => (headerKey l).isSome) = true)
    (hnone : ∀ l ∈ splitLines response, headerKey l ≠ some k) :
    getField (parse_response response) k = [] := by
  have hsf : ((splitLines response).foldl respStep respInit).section_found = true := by
    rw [foldl_section_found]
    simp [respInit, hfound]
  have hbuf := foldl_buf_empty (splitLines response) respInit k hnone
    (by cases k <;> rfl) (by simp [respInit])
  rw [getField_parse_response_found hsf k, hbuf.1]
  rfl

/-- Witness for C6 (amended): a reply whose only header is `IMPROVEMENTS:`
leaves `optimized` empty. -/
theorem C6_missing_section_empty_witness :
    ((splitLines ("IMPROVEMENTS:\nstuff".toList)).any fun l => (headerKey l).isSome) = true ∧
    getField (parse_response ("IMPROVEMENTS:\nstuff".toList)) SKey.optimized = [] :=
  ⟨by decide,
    C6_missing_section_empty ("IMPROVEMENTS:\nstuff".toList) SKey.optimized
      (by decide) (by decide)⟩

/-- C6 counterexample: for the reply `hello` no header matches anywhere, so
the `optimized` section is not found in the reply, yet the fallback stores the
whole reply there, so the field is not the empty string. -/
theorem C6_counterexample :
    ((splitLines ("hello".toList)).all fun l =>
      decide (headerKey l ≠ some SKey.optimized)) = true ∧
    (parse_response ("hello".toList)).optimized = "hello".toList ∧
    "hello".toList ≠ ([] : Line) := by
  decide

/-! ## C7: line counts of extracted sections -/

theorem lineCount_pyStrip_le {b : Line} (h : b = [] ∨ ∃ t, b = t ++ ['\n']) :
    lineCount (pyStrip b) ≤ nlCount b := by
  rcases h with rfl | ⟨t, rfl⟩
  · simp [pyStrip_nil, lineCount]
  · rw [pyStrip_concat_ws (by decide) t]
    by_cases hps : pyStrip t = []
    · simp [hps, lineCount]
    · rw [lineCount, if_neg hps, length_splitLines]
      have h1 : (pyStrip t).count '\n' ≤ t.count '\n' := (pyStrip_sublist t).count_le '\n'
      have h2 : nlCount (t ++ ['\n']) = t.count '\n' + 1 := by
        simp [nlCount]
      omega

theorem respStep_bound {st : RespState} {l : Line} (hnl : '\n' ∉ l) (hbi : BufInv st) :
    BufInv (respStep st l) ∧ respMeasure (respStep st l) ≤ respMeasure st + 1 := by
  cases hk : headerKey l with
  | some j =>
    rw [respStep_header hk]
    constructor
    · intro k2
      rw [getBuf_update]
      exact hbi k2
    · have heq : respMeasure { st with current_section := some j, section_found := true } =
        respMeasure st := rfl
      omega
  | none =>
    rcases @respStep_eq_of_none st l hk with heq | ⟨j, _, heq⟩
    · rw [heq]
      exact ⟨hbi, by omega⟩
    · rw [heq]
      constructor
      · intro k2
        by_cases hjk : j = k2
        · subst hjk
          rw [getBuf_appendBuf_eq]
          exact Or.inr ⟨getBuf st j ++ l, by simp⟩
        · rw [getBuf_appendBuf_ne st _ hjk]
          exact hbi k2
      · rw [respMeasure_appendBuf]
        have hcnt : nlCount (l ++ ['\n']) = 1 := by
          simp [nlCount, List.count_eq_zero_of_not_mem hnl]
        omega

theorem foldl_resp_bound : ∀ (lines : List Line) (st : RespState),
    (∀ l ∈ lines, '\n' ∉ l) → BufInv st →
    BufInv (List.foldl respStep st lines) ∧
    respMeasure (List.foldl respStep st lines) ≤ respMeasure st + lines.length
  | [], st, _, hbi => ⟨hbi, by simp⟩
  | l :: ls, st, hnl, hbi => by
    rw [List.foldl_cons]
    have hstep := respStep_bound (hnl l (by simp)) hbi
    have ih := foldl_resp_bound ls (respStep st l)
      (fun x hx => hnl x (List.mem_cons_of_mem l hx)) hstep.1
    refine ⟨ih.1, ?_⟩
    have h1 := ih.2
    have h2 := hstep.2
    simp only [List.length_cons]
    omega

/-- C7: when at least one header matches, the total number of lines of the
four extracted sections never exceeds the number of reply lines following the
first recognized header line. -/
theorem C7_section_lines_bounded (response : Line) (pre : List Line) (hline : Line)
    (suf : List Line)
    (hsplit : splitLines response = pre ++ hline :: suf)
    (hpre : ∀ l ∈ pre, headerKey l = none)
    (hh : (headerKey hline).isSome = true) :
    lineCount (parse_response response).optimized +
      lineCount (parse_response response).improvements +
      lineCount (parse_response response).edge_cases +
      lineCount (parse_response response).performance ≤ suf.length := by
  obtain ⟨k, hk⟩ := Option.isSome_iff_exists.mp hh
  have hnlsuf : ∀ l ∈ suf, '\n' ∉ l := by
    intro l hl
    have hmem : l ∈ splitLines response := by
      rw [hsplit]
      exact List.mem_append.mpr (Or.inr (List.mem_cons_of_mem _ hl))
    exact mem_splitLines_no_nl hmem
  have hfold : (splitLines response).foldl respStep respInit =
      List.foldl respStep
        { respInit with current_section := some k, section_found := true } suf := by
    rw [hsplit, List.foldl_append, foldl_resp_no_header pre respInit hpre rfl,
      List.foldl_cons, respStep_header hk]
  have hbi : BufInv { respInit with current_section := some k, section_found := true } :=
    fun k2 => Or.inl (by cases k2 <;> rfl)
  have hbound := foldl_resp_bound suf
    { respInit with current_section := some k, section_found := true } hnlsuf hbi
  have hsf : ((splitLines response).foldl respStep respInit).section_found = true := by
    rw [hfold, foldl_section_found]
    simp
  have e1 : (parse_response response).optimized =
      pyStrip (getBuf ((splitLines response).foldl respStep respInit) SKey.optimized) :=
    getField_parse_response_found hsf SKey.optimized
  have e2 : (parse_response response).improvements =
      pyStrip (getBuf ((splitLines response).foldl respStep respInit) SKey.improvements) :=
    getField_parse_response_found hsf SKey.improvements
  have e3 : (parse_response response).edge_cases =
      pyStrip (getBuf ((splitLines response).foldl respStep respInit) SKey.edge_cases) :=
    getField_parse_response_found hsf SKey.edge_cases
  have e4 : (parse_response response).performance =
      pyStrip (getBuf ((splitLines response).foldl respStep respInit) SKey.performance) :=
    getField_parse_response_found hsf SKey.performance
  rw [e1, e2, e3, e4, hfold]
  have b1 := lineCount_pyStrip_le (hbound.1 SKey.optimized)
  have b2 := lineCount_pyStrip_le (hbound.1 SKey.improvements)
  have b3 := lineCount_pyStrip_le (hbound.1 SKey.edge_cases)
  have b4 := lineCount_pyStrip_le (hbound.1 SKey.performance)
  have hμ0 : respMeasure
      { respInit with current_section := some k, section_found := true } = 0 := rfl
  have hμ := hbound.2
  have hsum : nlCount (getBuf (List.foldl respStep
        { respInit with current_section := some k, section_found := true } suf)
        SKey.optimized) +
      nlCount (getBuf (List.foldl respStep
        { respInit with current_section := some k, section_found := true } suf)
        SKey.improvements) +
      nlCount (getBuf (List.foldl respStep
        { respInit with current_section := some k, section_found := true } suf)
        SKey.edge_cases) +
      nlCount (getBuf (List.foldl respStep
        { respInit with current_section := some k, section_found := true } suf)
        SKey.performance) =
      respMeasure (List.foldl respStep
        { respInit with current_section := some k, section_found := true } suf) := rfl
  omega

/-- Witness for C7 at a concrete reply with one header and two content
lines. -/
theorem C7_section_lines_bounded_witness :
    splitLines ("OPTIMIZED DAX:\nline1\nline2".toList) =
      [] ++ "OPTIMIZED DAX:".toList :: ["line1".toList, "line2".toList] ∧
    (headerKey ("OPTIMIZED DAX:".toList)).isSome = true ∧
    lineCount (parse_response ("OPTIMIZED DAX:\nline1\nline2".toList)).optimized +
      lineCount (parse_response ("OPTIMIZED DAX:\nline1\nline2".toList)).improvements +
      lineCount (parse_response ("OPTIMIZED DAX:\nline1\nline2".toList)).edge_cases +
      lineCount (parse_response ("OPTIMIZED DAX:\nline1\nline2".toList)).performance ≤
      (["line1".toList, "line2".toList] : List Line).length :=
  ⟨by decide, by decide,
    C7_section_lines_bounded ("OPTIMIZED DAX:\nline1\nline2".toList) []
      ("OPTIMIZED DAX:".toList) ["line1".toList, "line2".toList]
      (by decide) (by decide) (by decide)⟩

/-! ## C8 and C10: the per-record loop -/

theorem error_marker_isPrefix (e : Line) :
    List.isPrefixOf ("ERROR:".toList) ("ERROR: ".toList ++ e) = true := by
  rw [List.isPrefixOf_iff_prefix]
  exact List.IsPrefix.trans (by decide) (List.prefix_append _ _)

theorem process_loop_length (exprs : List DaxRecord) (outcomes : List CallOutcome)
    (hlen : outcomes.length = exprs.length) :
    (process_loop exprs outcomes).length = exprs.length := by
  simp [process_loop, hlen]

theorem process_loop_get (exprs : List DaxRecord) (outcomes : List CallOutcome)
    (i : Nat) (hi : i < exprs.length) (hj : i < (process_loop exprs outcomes).length)
    (hk : i < outcomes.length) :
    (process_loop exprs outcomes).get ⟨i, hj⟩ =
      loopEntry (i + 1) (exprs.get ⟨i, hi⟩)
        (optimize_dax_expression (outcomes.get ⟨i, hk⟩)) := by
  simp only [process_loop, List.get_eq_getElem, List.getElem_map,
    List.enum_eq_enumFrom, List.getElem_enumFrom, List.getElem_zip]
  rw [Nat.zero_add]

/-- C8: with one external-call outcome per segmented record the loop yields
exactly one result entry per record, in input order, numbered from 1 and
carrying the record's name and original body; an external-call failure leaves
`optimized`, `improvements` and `edge_cases` empty and stores a non-empty
diagnostic in `performance`, and the remaining records are still processed. -/
theorem C8_loop_one_entry_per_record (exprs : List DaxRecord)
    (outcomes : List CallOutcome) (hlen : outcomes.length = exprs.length) :
    (process_loop exprs outcomes).length = exprs.length ∧
    ∀ (i : Nat) (hi : i < exprs.length) (hj : i < (process_loop exprs outcomes).length)
      (hk : i < outcomes.length),
      ((process_loop exprs outcomes).get ⟨i, hj⟩).number = i + 1 ∧
      ((process_loop exprs outcomes).get ⟨i, hj⟩).measure_name =
        (exprs.get ⟨i, hi⟩).measure_name ∧
      ((process_loop exprs outcomes).get ⟨i, hj⟩).original =
        (exprs.get ⟨i, hi⟩).dax_code ∧
      ∀ e : Line, outcomes.get ⟨i, hk⟩ = CallOutcome.failure e →
        ((process_loop exprs outcomes).get ⟨i, hj⟩).optimized = [] ∧
        ((process_loop exprs outcomes).get ⟨i, hj⟩).improvements = [] ∧
        ((process_loop exprs outcomes).get ⟨i, hj⟩).edge_cases = [] ∧
        ((process_loop exprs outcomes).get ⟨i, hj⟩).performance ≠ [] := by
  refine ⟨process_loop_length exprs outcomes hlen, ?_⟩
  intro i hi hj hk
  rw [process_loop_get exprs outcomes i hi hj hk]
  refine ⟨rfl, rfl, rfl, ?_⟩
  intro e he
  rw [he]
  simp [loopEntry, optimize_dax_expression, error_marker_isPrefix]

/-- Witness for C8 at a one-record input whose external call fails. -/
theorem C8_loop_one_entry_per_record_witness :
    (process_loop [⟨"[M].[A]".toList, "SUM(X)".toList⟩]
        [CallOutcome.failure ("boom".toList)]).length = 1 ∧
    ((process_loop [⟨"[M].[A]".toList, "SUM(X)".toList⟩]
        [CallOutcome.failure ("boom".toList)]).get
          ⟨0, by decide⟩).optimized = [] ∧
    ((process_loop [⟨"[M].[A]".toList, "SUM(X)".toList⟩]
        [CallOutcome.failure ("boom".toList)]).get
          ⟨0, by decide⟩).performance ≠ [] := by
  have h := C8_loop_one_entry_per_record [⟨"[M].[A]".toList, "SUM(X)".toList⟩]
    [CallOutcome.failure ("boom".toList)] (by decide)
  have h2 := (h.2 0 (by decide) (by decide) (by decide)).2.2.2 ("boom".toList) (by decide)
  exact ⟨h.1, h2.1, h2.2.2.2⟩

/-- C10: a successful reply that happens to begin with the literal `ERROR:`
marker is routed through the failure branch: extraction is skipped, the first
three fields are empty and `performance` embeds the reply text. -/
theorem C10_genuine_error_prefix (exprs : List DaxRecord) (outcomes : List CallOutcome)
    (i : Nat) (hi : i < exprs.length) (hj : i < (process_loop exprs outcomes).length)
    (hk : i < outcomes.length) (t : Line)
    (ht : outcomes.get ⟨i, hk⟩ = CallOutcome.ok t)
    (hpre : List.isPrefixOf ("ERROR:".toList) t = true) :
    ((process_loop exprs outcomes).get ⟨i, hj⟩).optimized = [] ∧
    ((process_loop exprs outcomes).get ⟨i, hj⟩).improvements = [] ∧
    ((process_loop exprs outcomes).get ⟨i, hj⟩).edge_cases = [] ∧
    ((process_loop exprs outcomes).get ⟨i, hj⟩).performance =
      "Error occurred: ".toList ++ t := by
  rw [process_loop_get exprs outcomes i hi hj hk, ht]
  have hpre2 : ['E', 'R', 'R', 'O', 'R', ':'] <+: t :=
    List.isPrefixOf_iff_prefix.mp hpre
  simp [loopEntry, optimize_dax_expression, hpre2]

/-- Witness for C10 at a genuine reply starting with `ERROR:`. -/
theorem C10_genuine_error_prefix_witness :
    ((process_loop [⟨"[M].[A]".toList, "SUM(X)".toList⟩]
        [CallOutcome.ok ("ERROR: not really an error".toList)]).get
          ⟨0, by decide⟩).optimized = [] ∧
    ((process_loop [⟨"[M].[A]".toList, "SUM(X)".toList⟩]
        [CallOutcome.ok ("ERROR: not really an error".toList)]).get
          ⟨0, by decide⟩).improvements = [] ∧
    ((process_loop [⟨"[M].[A]".toList, "SUM(X)".toList⟩]
        [CallOutcome.ok ("ERROR: not really an error".toList)]).get
          ⟨0, by decide⟩).edge_cases = [] ∧
    ((process_loop [⟨"[M].[A]".toList, "SUM(X)".toList⟩]
        [CallOutcome.ok ("ERROR: not really an error".toList)]).get
          ⟨0, by decide⟩).performance =
      "Error occurred: ".toList ++ "ERROR: not really an error".toList :=
  C10_genuine_error_prefix [⟨"[M].[A]".toList, "SUM(X)".toList⟩]
    [CallOutcome.ok ("ERROR: not really an error".toList)] 0 (by decide) (by decide)
    (by decide) ("ERROR: not really an error".toList) (by decide) (by decide)

end DaxOpt
